import Mathlib

/-!
Verification of the REM ESP32 continuous audio recording firmware
(`src/esp32/src/main.cpp`, configuration in `src/esp32/include/config.h`).

The development shallowly embeds the capture-to-storage-to-upload pipeline:
the WAV header writer/finalizer, the circular pre-buffer, the VAD-gated
recording state machine of `audioRecordingTask`, the storage eviction pass
`cleanupStorage`, and the upload scan `uploadTask`/`uploadFile` with its
persisted upload ledger.  Machine integers (`uint32_t`, `size_t`,
`unsigned long`) are modelled as `Nat`, with an explicit `% 2^32` where the
source relies on 32-bit wraparound.  Bytes are `Nat` values below 256.
-/

set_option maxRecDepth 100000

namespace REM

/-! Configuration constants (`config.h`) -/

def SAMPLE_RATE : Nat := 16000
def BITS_PER_SAMPLE : Nat := 16
def CHANNELS : Nat := 1
def CHUNK_DURATION_MS : Nat := 5 * 60 * 1000
def CHUNK_DURATION_SEC : Nat := CHUNK_DURATION_MS / 1000
def WAV_HEADER_SIZE : Nat := 44
def VAD_THRESHOLD : Nat := 300
def VAD_SPEECH_START_MS : Nat := 100
def VAD_SILENCE_TIMEOUT_MS : Nat := 3000
def VAD_PREBUFFER_MS : Nat := 500
def VAD_MIN_CHUNK_MS : Nat := 2000
def VAD_MAX_CHUNK_MS : Nat := CHUNK_DURATION_MS
def PREBUFFER_SIZE : Nat := SAMPLE_RATE * 2 * VAD_PREBUFFER_MS / 1000
def MAX_STORAGE_BYTES : Nat := 3 * 1024 * 1024
def MIN_FREE_SPACE : Nat := 512 * 1024

/-! WAV header (`writeWavHeader`, `updateWavHeader`)

A file is a `List Nat` of bytes.  `f.write((uint8_t*)&v, 4)` on a
little-endian target writes the four little-endian bytes of the `uint32_t`
`v`; `f.write((uint8_t*)&v, 2)` the two bytes of the `uint16_t`. -/

def le16 (v : Nat) : List Nat := [v % 256, v / 256 % 256]

def le32 (v : Nat) : List Nat :=
  [v % 256, v / 256 % 256, v / 65536 % 256, v / 16777216 % 256]

/-- Overwrite the bytes of `l` starting at offset `i` with `v`
(the effect of `f.seek(i); f.write(v)` inside an existing file). -/
def writeAt (l : List Nat) (i : Nat) (v : List Nat) : List Nat :=
  l.take i ++ v ++ l.drop (i + v.length)

/-- The 44 bytes of `writeWavHeader(File&, sr, bps, ch)`, written when a chunk
file is created.  `ds = 0xFFFFFFFF - 44` and `cs = ds + 36` are the
provisional (unknown-length) sentinels; `cs` is `uint32_t` arithmetic. -/
def writeWavHeader (sr bps ch : Nat) : List Nat :=
  let br := sr * ch * bps / 8
  let ba := ch * bps / 8
  let ds := 4294967295 - 44
  let cs := (ds + 36) % 4294967296
  [82, 73, 70, 70] ++ le32 cs ++ [87, 65, 86, 69] ++ [102, 109, 116, 32]
    ++ le32 16 ++ le16 1 ++ le16 ch ++ le32 sr ++ le32 br ++ le16 ba
    ++ le16 bps ++ [100, 97, 116, 97] ++ le32 ds

/-- Finalisation `updateWavHeader(File&)`: with the file's total size `sz`, seek to
offset 4 and overwrite with `sz - 8`, then seek to offset 40 and overwrite
with `sz - WAV_HEADER_SIZE` (both `uint32_t` subtractions, modelled mod
`2^32`). -/
def updateWavHeader (file : List Nat) (sz : Nat) : List Nat :=
  let ds := (sz + 4294967296 - WAV_HEADER_SIZE) % 4294967296
  let cs := (sz + 4294967296 - 8) % 4294967296
  writeAt (writeAt file 4 (le32 cs)) 40 (le32 ds)

theorem writeWavHeader_length (sr bps ch : Nat) :
    (writeWavHeader sr bps ch).length = 44 := by
  simp [writeWavHeader, le16, le32]

/-- C5: For every finalized segment with payload size S bytes, header bytes
4-7 hold S + 44 - 8 and header bytes 40-43 hold S, while every other byte of
the 44-byte header is identical to the value written at creation; finalize
rewrites exactly those two 4-byte fields (the payload after the header is
untouched). -/
theorem wav_finalize_exact (sr bps ch : Nat) (payload : List Nat)
    (h : payload.length + 44 < 4294967296) :
    (updateWavHeader (writeWavHeader sr bps ch ++ payload)
        (44 + payload.length)).take 4 = (writeWavHeader sr bps ch).take 4
    ∧ ((updateWavHeader (writeWavHeader sr bps ch ++ payload)
        (44 + payload.length)).drop 4).take 4 = le32 (payload.length + 44 - 8)
    ∧ ((updateWavHeader (writeWavHeader sr bps ch ++ payload)
        (44 + payload.length)).drop 8).take 32 =
        ((writeWavHeader sr bps ch).drop 8).take 32
    ∧ ((updateWavHeader (writeWavHeader sr bps ch ++ payload)
        (44 + payload.length)).drop 40).take 4 = le32 payload.length
    ∧ (updateWavHeader (writeWavHeader sr bps ch ++ payload)
        (44 + payload.length)).drop 44 = payload := by
  refine ⟨?_, ?_, ?_, ?_, ?_⟩ <;>
    (simp [updateWavHeader, writeWavHeader, writeAt, le16, le32, WAV_HEADER_SIZE];
     try omega)

/-- Witness for `wav_finalize_exact` at the firmware's audio format and a
3-byte payload. -/
theorem wav_finalize_exact_witness :
    ([1, 2, 3] : List Nat).length + 44 < 4294967296
    ∧ ((updateWavHeader (writeWavHeader 16000 16 1 ++ [1, 2, 3])
        (44 + ([1, 2, 3] : List Nat).length)).drop 40).take 4 =
        le32 ([1, 2, 3] : List Nat).length := by
  refine ⟨by decide, ?_⟩
  exact (wav_finalize_exact 16000 16 1 [1, 2, 3] (by decide)).2.2.2.1

/-! Circular pre-buffer (`VADState` fields, `addToPreBuffer`,
`flushPreBufferToFile`)

The capacity is the compile-time constant `PREBUFFER_SIZE`; the model keeps
it as a parameter `cap` so the ring arithmetic is verified for every
capacity, and instantiates `PREBUFFER_SIZE` where the firmware does. -/

structure PreBuf where
  data : List Nat
  head : Nat
  fill : Nat
  deriving DecidableEq

/-- The freshly `malloc`ed pre-buffer: `preBufferHead = preBufferFill = 0`
(`setupVAD`); the `cap` bytes of backing store are uninitialised, modelled
as zeros. -/
def initBuf (cap : Nat) : PreBuf := ⟨List.replicate cap 0, 0, 0⟩

/-- One iteration of the `addToPreBuffer` loop: store at `preBufferHead`,
advance the head mod the capacity, saturate the fill count at the
capacity. -/
def pushByte (cap : Nat) (b : PreBuf) (x : Nat) : PreBuf :=
  { data := b.data.set b.head x
    head := (b.head + 1) % cap
    fill := if b.fill < cap then b.fill + 1 else b.fill }

/-- Loop of `addToPreBuffer(data, length)`: push every byte in order. -/
def addToPreBuffer (cap : Nat) (b : PreBuf) (bytes : List Nat) : PreBuf :=
  bytes.foldl (pushByte cap) b

/-- Effect of `flushPreBufferToFile()`: the bytes written to the open file, and the
buffer afterwards.  Empty buffer: early return, nothing written.  Not yet
wrapped (`fill < cap`): one write of `fill` bytes starting at
`head - fill`.  Wrapped: two writes, `head..cap-1` then `0..head-1`.
Afterwards head and fill are cleared. -/
def flushPreBufferToFile (cap : Nat) (b : PreBuf) : List Nat × PreBuf :=
  if b.fill = 0 then ([], b)
  else if b.fill < cap then
    ((b.data.drop (b.head - b.fill)).take b.fill, { b with head := 0, fill := 0 })
  else
    (b.data.drop b.head ++ b.data.take b.head, { b with head := 0, fill := 0 })

/-- The pre-buffer invariant of claim C9: the fill count never exceeds the
capacity, and before the first wraparound the head equals the fill count. -/
def preInv (cap : Nat) (b : PreBuf) : Prop :=
  b.fill ≤ cap ∧ (b.fill < cap → b.head = b.fill)

/-! ### Helper list lemmas for the ring arithmetic -/

theorem set_take_succ : ∀ (l : List Nat) (i x : Nat), i < l.length →
    (l.set i x).take (i + 1) = l.take i ++ [x] := by
  intro l
  induction l with
  | nil => intro i x h; simp at h
  | cons a t ih =>
    intro i x h
    cases i with
    | zero => simp
    | succ j =>
      simp only [List.set, List.take, List.cons_append, List.cons.injEq, true_and]
      exact ih j x (by simpa using h)

theorem set_drop_succ : ∀ (l : List Nat) (i x : Nat),
    (l.set i x).drop (i + 1) = l.drop (i + 1) := by
  intro l
  induction l with
  | nil => intro i x; simp
  | cons a t ih =>
    intro i x
    cases i with
    | zero => simp
    | succ j => simpa using ih j x

theorem set_last_eq : ∀ (l : List Nat) (i x : Nat), l.length = i + 1 →
    l.set i x = l.take i ++ [x] := by
  intro l
  induction l with
  | nil => intro i x h; simp at h
  | cons a t ih =>
    intro i x h
    cases i with
    | zero =>
      have : t = [] := by
        cases t with
        | nil => rfl
        | cons b u => simp at h
      simp [this]
    | succ j =>
      simp only [List.set, List.take, List.cons_append, List.cons.injEq, true_and]
      exact ih j x (by simpa using h)

theorem succ_mod_eq (n cap : Nat) : (n % cap + 1) % cap = (n + 1) % cap := by
  have h := Nat.div_add_mod n cap
  have : n + 1 = cap * (n / cap) + (n % cap + 1) := by omega
  rw [this, Nat.mul_add_mod]

/-- Full characterisation of a pre-buffer built by pushing the byte stream
`s` into the empty buffer: the fill count is `min |s| cap`, the head is
`|s| mod cap`, and the flush writes exactly the last `min |s| cap` bytes of
`s` in chronological order. -/
theorem pushAll_spec (cap : Nat) (hcap : 0 < cap) (s : List Nat) :
    (addToPreBuffer cap (initBuf cap) s).data.length = cap
    ∧ (addToPreBuffer cap (initBuf cap) s).fill = min s.length cap
    ∧ (addToPreBuffer cap (initBuf cap) s).head = s.length % cap
    ∧ (flushPreBufferToFile cap (addToPreBuffer cap (initBuf cap) s)).1 =
        s.drop (s.length - cap) := by
  induction s using List.reverseRecOn with
  | nil =>
    refine ⟨by simp [addToPreBuffer, initBuf], by simp [addToPreBuffer, initBuf],
      by simp [addToPreBuffer, initBuf], ?_⟩
    simp [addToPreBuffer, initBuf, flushPreBufferToFile]
  | append_singleton s x ih =>
    obtain ⟨ihlen, ihfill, ihhead, ihflush⟩ := ih
    set b := addToPreBuffer cap (initBuf cap) s with hb
    have hstep : addToPreBuffer cap (initBuf cap) (s ++ [x]) = pushByte cap b x := by
      rw [hb]; simp [addToPreBuffer, List.foldl_append]
    set n := s.length with hn
    have hlen' : (s ++ [x]).length = n + 1 := by simp
    have hdlen : (pushByte cap b x).data.length = cap := by
      simp [pushByte, ihlen]
    rw [hstep, hlen']
    by_cases hfull : n < cap
    · -- buffer not yet wrapped before this push
      have hfill : b.fill = n := by rw [ihfill]; omega
      have hhead : b.head = n := by rw [ihhead]; exact Nat.mod_eq_of_lt hfull
      have hflush : (flushPreBufferToFile cap b).1 = s := by
        rw [ihflush]
        have h0 : n - cap = 0 := by omega
        rw [h0, List.drop_zero]
      have hdata : b.data.take n = s := by
        by_cases h0 : n = 0
        · have hs : s = [] := List.length_eq_zero.mp (by omega)
          simp [hs, h0]
        · have he : (flushPreBufferToFile cap b).1 =
              (b.data.drop (b.head - b.fill)).take b.fill := by
            rw [flushPreBufferToFile, if_neg (by omega), if_pos (by omega)]
          rw [he, hhead, hfill, Nat.sub_self, List.drop_zero] at hflush
          exact hflush
      have hfillp : (pushByte cap b x).fill = n + 1 := by
        simp only [pushByte]; rw [hfill, if_pos (by omega)]
      refine ⟨hdlen, ?_, ?_, ?_⟩
      · rw [hfillp]; omega
      · show (b.head + 1) % cap = (n + 1) % cap
        rw [hhead]
      · by_cases hlast : n + 1 < cap
        · -- still not full after the push
          rw [flushPreBufferToFile, if_neg (by omega), if_pos (by omega), hfillp]
          show ((b.data.set b.head x).drop ((b.head + 1) % cap - (n + 1))).take (n + 1)
              = (s ++ [x]).drop (n + 1 - cap)
          rw [hhead, Nat.mod_eq_of_lt (by omega), Nat.sub_self, List.drop_zero]
          rw [set_take_succ b.data n x (by omega), hdata]
          have h1 : n + 1 - cap = 0 := by omega
          rw [h1, List.drop_zero]
        · -- the push exactly fills the buffer: cap = n + 1
          have hcapn : cap = n + 1 := by omega
          rw [flushPreBufferToFile, if_neg (by omega), if_neg (by omega)]
          show (b.data.set b.head x).drop ((b.head + 1) % cap)
              ++ (b.data.set b.head x).take ((b.head + 1) % cap)
              = (s ++ [x]).drop (n + 1 - cap)
          have hm : (b.head + 1) % cap = 0 := by
            rw [hhead, hcapn]; exact Nat.mod_self (n + 1)
          rw [hm, List.drop_zero, List.take_zero, List.append_nil]
          rw [hhead, set_last_eq b.data n x (by rw [ihlen, hcapn]), hdata]
          have h1 : n + 1 - cap = 0 := by omega
          rw [h1, List.drop_zero]
    · -- buffer already full before this push: cap ≤ n
      have hfill : b.fill = cap := by rw [ihfill]; omega
      have hr : b.head < cap := by rw [ihhead]; exact Nat.mod_lt _ hcap
      have hflush2 : b.data.drop b.head ++ b.data.take b.head = s.drop (n - cap) := by
        have he : (flushPreBufferToFile cap b).1 =
            b.data.drop b.head ++ b.data.take b.head := by
          rw [flushPreBufferToFile, if_neg (by omega), if_neg (by omega)]
        rw [← he, ihflush]
      have hfillp : (pushByte cap b x).fill = cap := by
        simp only [pushByte]; rw [hfill, if_neg (by omega)]
      have hheadp : (pushByte cap b x).head = (n + 1) % cap := by
        show (b.head + 1) % cap = (n + 1) % cap
        rw [ihhead, succ_mod_eq]
      have hcons := List.drop_eq_getElem_cons (show b.head < b.data.length by omega)
      have htail : b.data.drop (b.head + 1) ++ b.data.take b.head = s.drop (n + 1 - cap) := by
        have h1 : s.drop (n + 1 - cap) = (s.drop (n - cap)).drop 1 := by
          rw [List.drop_drop]; congr 1; omega
        rw [h1, ← hflush2, hcons, List.cons_append, List.drop_one, List.tail_cons]
      refine ⟨hdlen, ?_, ?_, ?_⟩
      · rw [hfillp]; omega
      · exact hheadp
      · rw [flushPreBufferToFile, if_neg (by omega), if_neg (by omega)]
        show (b.data.set b.head x).drop ((pushByte cap b x).head)
            ++ (b.data.set b.head x).take ((pushByte cap b x).head)
            = (s ++ [x]).drop (n + 1 - cap)
        have hrhs : (s ++ [x]).drop (n + 1 - cap)
            = s.drop (n + 1 - cap) ++ [x] := by
          rw [List.drop_append_eq_append_drop]
          congr 1
          have h2 : n + 1 - cap - s.length = 0 := by omega
          rw [h2, List.drop_zero]
        rw [hrhs]
        by_cases hw : b.head + 1 < cap
        · have hm : (pushByte cap b x).head = b.head + 1 := by
            show (b.head + 1) % cap = b.head + 1
            exact Nat.mod_eq_of_lt hw
          rw [hm, set_drop_succ, set_take_succ b.data b.head x (by omega)]
          rw [← List.append_assoc, htail]
        · have hend : b.head + 1 = cap := by omega
          have hm : (pushByte cap b x).head = 0 := by
            show (b.head + 1) % cap = 0
            rw [hend]; exact Nat.mod_self cap
          rw [hm, List.drop_zero, List.take_zero, List.append_nil]
          rw [set_last_eq b.data b.head x (by omega)]
          have hdrop : b.data.drop (b.head + 1) = [] := by
            apply List.drop_eq_nil_of_le; omega
          rw [hdrop, List.nil_append] at htail
          rw [htail]

theorem pushByte_inv (cap : Nat) (b : PreBuf) (x : Nat) (h : preInv cap b) :
    preInv cap (pushByte cap b x) := by
  obtain ⟨h1, h2⟩ := h
  refine ⟨?_, ?_⟩
  · simp only [pushByte]
    split <;> omega
  · simp only [pushByte]
    split
    · rename_i hflt
      intro hlt
      rw [h2 hflt]
      exact Nat.mod_eq_of_lt hlt
    · intro hlt
      omega

theorem addToPreBuffer_inv (cap : Nat) :
    ∀ (bytes : List Nat) (b : PreBuf), preInv cap b →
      preInv cap (addToPreBuffer cap b bytes) := by
  intro bytes
  induction bytes with
  | nil => intro b h; exact h
  | cons y t ih =>
    intro b h
    show preInv cap ((y :: t).foldl (pushByte cap) b)
    rw [List.foldl_cons]
    exact ih (pushByte cap b y) (pushByte_inv cap b y h)

theorem initBuf_inv (cap : Nat) : preInv cap (initBuf cap) := by
  unfold preInv initBuf
  simp

/-- C9: at every step the pre-buffer satisfies `preBufferFill ≤
PREBUFFER_SIZE`, and while `preBufferFill < PREBUFFER_SIZE` also
`preBufferHead = preBufferFill`; the invariant holds initially, is
preserved by `addToPreBuffer`, is re-established (head and fill both zero)
by `flushPreBufferToFile`, and makes the non-wrapped flush start offset
`preBufferHead - preBufferFill` equal zero instead of underflowing the
unsigned subtraction. -/
theorem prebuffer_invariant (cap : Nat) (b : PreBuf) (bytes : List Nat)
    (hcap : 0 < cap) (h : preInv cap b) :
    preInv cap (initBuf cap)
    ∧ preInv cap (addToPreBuffer cap b bytes)
    ∧ (flushPreBufferToFile cap b).2.head = 0
    ∧ (flushPreBufferToFile cap b).2.fill = 0
    ∧ (b.fill < cap → b.head = b.fill ∧ b.head - b.fill = 0) := by
  refine ⟨initBuf_inv cap, addToPreBuffer_inv cap bytes b h, ?_, ?_, ?_⟩
  · rw [flushPreBufferToFile]
    split
    · rename_i hf
      have h2 := h.2 (by omega)
      simp [h2, hf]
    · split <;> rfl
  · rw [flushPreBufferToFile]
    split
    · rename_i hf
      simpa using hf
    · split <;> rfl
  · intro hlt
    have h2 := h.2 hlt
    exact ⟨h2, by omega⟩

/-- Witness for `prebuffer_invariant`: capacity 4, five pushed bytes (one
wraparound). -/
theorem prebuffer_invariant_witness :
    (0 : Nat) < 4 ∧ preInv 4 (initBuf 4)
    ∧ preInv 4 (addToPreBuffer 4 (initBuf 4) [1, 2, 3, 4, 5]) := by
  refine ⟨by decide, initBuf_inv 4, ?_⟩
  exact (prebuffer_invariant 4 (initBuf 4) [1, 2, 3, 4, 5] (by decide)
    (initBuf_inv 4)).2.1

/-! Recording state machine (`audioRecordingTask`, VAD build).

A frame is one successful `i2s_read`: its `millis()` timestamp and the
signed 16-bit samples.  `calculateRMS` models
`sqrt((double)sumSquares / numSamples)` by the integer square root of the
integer quotient (Newton iteration with explicit fuel; the two agree
except possibly at exact IEEE rounding boundaries of the division).
`MState` gathers the mutable globals: the `recording` struct (the open
file is `fileOpen`/`fileBytes`), the `vadState` struct, and the model
artifacts `disk` (finalized files retained on flash), `discardedChunks`
(files removed by the silent-chunk branch of `finishCurrentChunk`) and
`strayClosed` (the defensive close at the top of
`startNewRecordingChunk`).  The `cleanupStorage` call sites inside the
task are modelled separately (see the eviction section).  In `idleStep`
and `captureStep` the source performs the pre-buffer push / file write
first and then branches; the model attaches the identical update to every
branch, which reads the same fields and is state-for-state equal. -/

structure FrameIn where
  now : Nat
  samples : List Int
  deriving DecidableEq

def sqrtIter (n : Nat) : Nat → Nat → Nat
  | 0, guess => guess
  | fuel + 1, guess =>
    let next := (guess + n / guess) / 2
    if next < guess then sqrtIter n fuel next else guess

def intSqrt (n : Nat) : Nat := if n ≤ 1 then n else sqrtIter n n (n / 2)

def calculateRMS (samples : List Int) : Nat :=
  if samples.length = 0 then 0
  else intSqrt ((samples.map (fun s => (s * s).toNat)).sum / samples.length)

def sampleToBytes (s : Int) : List Nat :=
  let u := (s % 65536).toNat
  [u % 256, u / 256]

def frameBytes (samples : List Int) : List Nat := (samples.map sampleToBytes).flatten

structure MState where
  fileOpen : Bool
  fileBytes : List Nat
  chunkStartMillis : Nat
  bytesWritten : Nat
  isRecording : Bool
  hasSpeech : Bool
  speechDetected : Bool
  speechStartTime : Nat
  silenceStartTime : Nat
  isCapturing : Bool
  pre : PreBuf
  disk : List (List Nat)
  discardedChunks : Nat
  strayClosed : Nat
  deriving DecidableEq

def initState (cap : Nat) : MState where
  fileOpen := false
  fileBytes := []
  chunkStartMillis := 0
  bytesWritten := 0
  isRecording := false
  hasSpeech := false
  speechDetected := false
  speechStartTime := 0
  silenceStartTime := 0
  isCapturing := false
  pre := initBuf cap
  disk := []
  discardedChunks := 0
  strayClosed := 0

def gracefulClose (s : MState) : MState :=
  if s.fileOpen = true ∧ s.isCapturing = false then
    { s with fileOpen := false,
             disk := s.disk ++ [updateWavHeader s.fileBytes s.fileBytes.length],
             fileBytes := [], strayClosed := s.strayClosed + 1 }
  else s

def openChunkFlush (cap : Nat) (s : MState) : MState :=
  { s with fileBytes := s.fileBytes ++ (flushPreBufferToFile cap s.pre).1,
           bytesWritten := s.bytesWritten + (flushPreBufferToFile cap s.pre).1.length,
           pre := (flushPreBufferToFile cap s.pre).2 }

def startNewRecordingChunk (cap now : Nat) (s0 : MState) : MState :=
  openChunkFlush cap
    { gracefulClose s0 with
        fileOpen := true
        fileBytes := writeWavHeader SAMPLE_RATE BITS_PER_SAMPLE CHANNELS
        chunkStartMillis := now
        bytesWritten := WAV_HEADER_SIZE
        isRecording := true
        hasSpeech := false
        isCapturing := true }

def finishCurrentChunk (discard : Bool) (s : MState) : MState :=
  if s.fileOpen = false then s
  else if discard = true ∨ s.hasSpeech = false then
    { s with fileOpen := false, fileBytes := [],
             discardedChunks := s.discardedChunks + 1,
             isRecording := false, hasSpeech := false, isCapturing := false }
  else
    { s with fileOpen := false, fileBytes := [],
             disk := s.disk ++ [updateWavHeader s.fileBytes s.fileBytes.length],
             isRecording := false, hasSpeech := false, isCapturing := false }

def maxAndMinChecks (cap now : Nat) (isSpeech : Bool) (s : MState) : MState :=
  if VAD_MAX_CHUNK_MS ≤ now - s.chunkStartMillis then
    if isSpeech = true then
      { startNewRecordingChunk cap now (finishCurrentChunk false s) with hasSpeech := true }
    else finishCurrentChunk false s
  else if now - s.chunkStartMillis < VAD_MIN_CHUNK_MS then
    { s with silenceStartTime := 0 }
  else s

def idleStep (cap : Nat) (f : FrameIn) (s0 : MState) : MState :=
  if VAD_THRESHOLD ≤ calculateRMS f.samples then
    if s0.speechDetected = false then
      { s0 with pre := addToPreBuffer cap s0.pre (frameBytes f.samples),
                speechDetected := true, speechStartTime := f.now }
    else if VAD_SPEECH_START_MS ≤ f.now - s0.speechStartTime then
      { startNewRecordingChunk cap f.now
          { s0 with pre := addToPreBuffer cap s0.pre (frameBytes f.samples) }
        with hasSpeech := true }
    else { s0 with pre := addToPreBuffer cap s0.pre (frameBytes f.samples) }
  else
    { s0 with pre := addToPreBuffer cap s0.pre (frameBytes f.samples),
              speechDetected := false }

def captureStep (cap : Nat) (f : FrameIn) (s0 : MState) : MState :=
  if VAD_THRESHOLD ≤ calculateRMS f.samples then
    maxAndMinChecks cap f.now true
      { s0 with fileBytes := s0.fileBytes ++ frameBytes f.samples,
                bytesWritten := s0.bytesWritten + (frameBytes f.samples).length,
                silenceStartTime := 0, hasSpeech := true }
  else if s0.silenceStartTime = 0 then
    maxAndMinChecks cap f.now false
      { s0 with fileBytes := s0.fileBytes ++ frameBytes f.samples,
                bytesWritten := s0.bytesWritten + (frameBytes f.samples).length,
                silenceStartTime := f.now }
  else if VAD_SILENCE_TIMEOUT_MS ≤ f.now - s0.silenceStartTime then
    finishCurrentChunk false
      { s0 with fileBytes := s0.fileBytes ++ frameBytes f.samples,
                bytesWritten := s0.bytesWritten + (frameBytes f.samples).length }
  else
    maxAndMinChecks cap f.now false
      { s0 with fileBytes := s0.fileBytes ++ frameBytes f.samples,
                bytesWritten := s0.bytesWritten + (frameBytes f.samples).length }

def audioRecordingTask (cap : Nat) (f : FrameIn) (s : MState) : MState :=
  if f.samples.length = 0 then s
  else if s.isCapturing = false then idleStep cap f s
  else captureStep cap f s

def runFrom (cap : Nat) (s : MState) (ts : List FrameIn) : MState :=
  ts.foldl (fun st f => audioRecordingTask cap f st) s

def runTrace (cap : Nat) (ts : List FrameIn) : MState := runFrom cap (initState cap) ts

def frameIsSpeech (f : FrameIn) : Bool := decide (VAD_THRESHOLD ≤ calculateRMS f.samples)

def chunkInv (s : MState) : Prop :=
  s.fileOpen = s.isCapturing
  ∧ (s.isCapturing = true → s.hasSpeech = true)
  ∧ s.discardedChunks = 0

def speechFrame (t : Nat) : FrameIn := ⟨t, [500]⟩
def silentFrame (t : Nat) : FrameIn := ⟨t, [50]⟩

def scenarioAB (n : Nat) : List FrameIn :=
  (List.range 10).map (fun i => silentFrame (100 * i))
  ++ (List.range 8).map (fun i => speechFrame (1000 + 100 * i))
  ++ (List.range n).map (fun i => silentFrame (1800 + 100 * i))


def idleBytes (ts : List FrameIn) : List Nat := (ts.map (fun f => frameBytes f.samples)).flatten

/-- C1 counterexample: starting from the capturing segment of Scenario A
(1000 ms idle at energy 50, then speech at energy 500 from t = 1000 with
100 ms debounce, capture open at t = 1100, speech through t = 1700),
feeding 3200 ms of sub-threshold frames (t = 1800 .. 4900) does NOT close
the segment, although both of the claim's conditions - total capture time
at least 2000 ms and a contiguous 3000 ms silence run - have held since
t = 4800: the code resets the silence-run timer on every sub-threshold
frame until capture age reaches the minimum chunk duration, so the run
that counts starts only at t = 3100. -/
theorem scenarioB_no_close :
    (runTrace 4 (scenarioAB 32)).disk.length = 0
    ∧ (runTrace 4 (scenarioAB 32)).discardedChunks = 0
    ∧ (runTrace 4 (scenarioAB 32)).isCapturing = true := by decide

/-- C1 (amended): with the same setup, the segment is still open after
4300 ms of silence (t = 6000) and closes - finished, not discarded,
retained on disk pending upload - at t = 6100, once a contiguous 3000 ms
silence run measured from the first sub-threshold frame at or after the
2000 ms minimum-duration mark has elapsed: 4400 ms of silence, not
3200 ms. -/
theorem scenarioB_close_at_4400 :
    (runTrace 4 (scenarioAB 43)).isCapturing = true
    ∧ (runTrace 4 (scenarioAB 44)).disk.length = 1
    ∧ (runTrace 4 (scenarioAB 44)).discardedChunks = 0
    ∧ (runTrace 4 (scenarioAB 44)).isCapturing = false := by decide


/-- C6 counterexample: `finishCurrentChunk` never clears `speechDetected`,
so after a capture episode ends the pending flag and its stale start time
survive; a single above-threshold frame (t = 6200) immediately preceded by
a sub-threshold frame (t = 6100) then moves the machine from Idle to
Capturing although no contiguous above-threshold run of duration at least
`speechStartDebounce` ending at that frame exists. -/
theorem speech_debounce_counterexample :
    (runTrace 4 (scenarioAB 44)).isCapturing = false
    ∧ (runTrace 4 (scenarioAB 44 ++ [speechFrame 6200])).isCapturing = true
    ∧ frameIsSpeech (silentFrame 6100) = false
    ∧ ¬ (∃ j, j ≤ (scenarioAB 44).length
        ∧ ((scenarioAB 44 ++ [speechFrame 6200]).drop j).all frameIsSpeech = true
        ∧ VAD_SPEECH_START_MS ≤ 6200 - ((scenarioAB 44 ++ [speechFrame 6200]).getD j ⟨0, []⟩).now) := by
  decide


theorem gracefulClose_proj (s : MState) :
    (gracefulClose s).isCapturing = s.isCapturing
    ∧ (gracefulClose s).discardedChunks = s.discardedChunks
    ∧ (gracefulClose s).pre = s.pre := by
  unfold gracefulClose
  split <;> exact ⟨rfl, rfl, rfl⟩

theorem snc_proj (cap now : Nat) (s : MState) :
    (startNewRecordingChunk cap now s).fileOpen = true
    ∧ (startNewRecordingChunk cap now s).isCapturing = true
    ∧ (startNewRecordingChunk cap now s).hasSpeech = false
    ∧ (startNewRecordingChunk cap now s).discardedChunks = s.discardedChunks
    ∧ (startNewRecordingChunk cap now s).chunkStartMillis = now
    ∧ (startNewRecordingChunk cap now s).fileBytes =
        writeWavHeader SAMPLE_RATE BITS_PER_SAMPLE CHANNELS
          ++ (flushPreBufferToFile cap (gracefulClose s).pre).1
    ∧ (startNewRecordingChunk cap now s).pre =
        (flushPreBufferToFile cap (gracefulClose s).pre).2 := by
  refine ⟨rfl, rfl, rfl, ?_, rfl, rfl, rfl⟩
  show (gracefulClose s).discardedChunks = s.discardedChunks
  exact (gracefulClose_proj s).2.1

theorem finishCurrentChunk_inv (s : MState) (h1 : s.fileOpen = s.isCapturing)
    (h2 : s.isCapturing = true → s.hasSpeech = true) :
    (finishCurrentChunk false s).fileOpen = false
    ∧ (finishCurrentChunk false s).isCapturing = false
    ∧ (finishCurrentChunk false s).discardedChunks = s.discardedChunks := by
  unfold finishCurrentChunk
  cases hc : s.isCapturing with
  | false =>
    have ho : s.fileOpen = false := by rw [h1, hc]
    rw [if_pos ho]
    exact ⟨ho, hc, rfl⟩
  | true =>
    have ho : s.fileOpen = true := by rw [h1, hc]
    have hs : s.hasSpeech = true := h2 hc
    rw [if_neg (by simp [ho])]
    rw [if_neg (by simp [hs])]
    exact ⟨rfl, rfl, rfl⟩

theorem maxAndMinChecks_chunkInv (cap now : Nat) (isSp : Bool) (s : MState)
    (h : chunkInv s) : chunkInv (maxAndMinChecks cap now isSp s) := by
  obtain ⟨h1, h2, h3⟩ := h
  unfold maxAndMinChecks
  by_cases hmax : VAD_MAX_CHUNK_MS ≤ now - s.chunkStartMillis
  · rw [if_pos hmax]
    have hfin := finishCurrentChunk_inv s h1 h2
    by_cases hsp : isSp = true
    · rw [if_pos hsp]
      refine ⟨rfl, fun _ => rfl, ?_⟩
      show (startNewRecordingChunk cap now (finishCurrentChunk false s)).discardedChunks = 0
      rw [(snc_proj cap now (finishCurrentChunk false s)).2.2.2.1, hfin.2.2, h3]
    · rw [if_neg hsp]
      refine ⟨?_, ?_, ?_⟩
      · rw [hfin.1, hfin.2.1]
      · intro hx
        rw [hfin.2.1] at hx
        exact absurd hx (by simp)
      · rw [hfin.2.2, h3]
  · rw [if_neg hmax]
    by_cases hmin : now - s.chunkStartMillis < VAD_MIN_CHUNK_MS
    · rw [if_pos hmin]
      exact ⟨h1, h2, h3⟩
    · rw [if_neg hmin]
      exact ⟨h1, h2, h3⟩

theorem audioRecordingTask_chunkInv (cap : Nat) (f : FrameIn) (s : MState)
    (h : chunkInv s) : chunkInv (audioRecordingTask cap f s) := by
  obtain ⟨h1, h2, h3⟩ := h
  unfold audioRecordingTask
  by_cases h0 : f.samples.length = 0
  · rw [if_pos h0]; exact ⟨h1, h2, h3⟩
  · rw [if_neg h0]
    by_cases hc : s.isCapturing = false
    · rw [if_pos hc]
      unfold idleStep
      by_cases hsp : VAD_THRESHOLD ≤ calculateRMS f.samples
      · rw [if_pos hsp]
        by_cases hd : s.speechDetected = false
        · rw [if_pos hd]; exact ⟨h1, h2, h3⟩
        · rw [if_neg hd]
          by_cases hdur : VAD_SPEECH_START_MS ≤ f.now - s.speechStartTime
          · rw [if_pos hdur]
            refine ⟨rfl, fun _ => rfl, ?_⟩
            show (startNewRecordingChunk cap f.now _).discardedChunks = 0
            rw [(snc_proj cap f.now _).2.2.2.1]
            exact h3
          · rw [if_neg hdur]; exact ⟨h1, h2, h3⟩
      · rw [if_neg hsp]; exact ⟨h1, h2, h3⟩
    · rw [if_neg hc]
      unfold captureStep
      have hct : s.isCapturing = true := by
        cases hcv : s.isCapturing
        · exact absurd hcv hc
        · rfl
      by_cases hsp : VAD_THRESHOLD ≤ calculateRMS f.samples
      · rw [if_pos hsp]
        exact maxAndMinChecks_chunkInv cap f.now true _ ⟨h1, fun _ => rfl, h3⟩
      · rw [if_neg hsp]
        by_cases hz : s.silenceStartTime = 0
        · rw [if_pos hz]
          exact maxAndMinChecks_chunkInv cap f.now false _ ⟨h1, fun _ => h2 hct, h3⟩
        · rw [if_neg hz]
          by_cases hto : VAD_SILENCE_TIMEOUT_MS ≤ f.now - s.silenceStartTime
          · rw [if_pos hto]
            have hfin := finishCurrentChunk_inv
              { s with fileBytes := s.fileBytes ++ frameBytes f.samples,
                       bytesWritten := s.bytesWritten + (frameBytes f.samples).length }
              h1 (fun _ => h2 hct)
            refine ⟨?_, ?_, ?_⟩
            · rw [hfin.1, hfin.2.1]
            · intro hx
              rw [hfin.2.1] at hx
              exact absurd hx (by simp)
            · rw [hfin.2.2]; exact h3
          · rw [if_neg hto]
            exact maxAndMinChecks_chunkInv cap f.now false _ ⟨h1, fun _ => h2 hct, h3⟩

theorem runFrom_chunkInv (cap : Nat) :
    ∀ (ts : List FrameIn) (s : MState), chunkInv s → chunkInv (runFrom cap s ts) := by
  intro ts
  induction ts with
  | nil => intro s h; exact h
  | cons f t ih =>
    intro s h
    show chunkInv ((f :: t).foldl (fun st fr => audioRecordingTask cap fr st) s)
    rw [List.foldl_cons]
    exact ih _ (audioRecordingTask_chunkInv cap f s h)

/-- C10: with VAD enabled, a segment opened through the capture path is
speech-marked in the same tick, `finishCurrentChunk` is only invoked with
`discard = false`, and consequently the silent-chunk deletion branch never
fires: no segment is ever discarded. -/
theorem capture_never_discards (cap : Nat) (ts : List FrameIn) :
    (runTrace cap ts).discardedChunks = 0
    ∧ ((runTrace cap ts).isCapturing = true → (runTrace cap ts).hasSpeech = true) := by
  have h := runFrom_chunkInv cap ts (initState cap) ⟨rfl, fun hx => absurd hx (by simp [initState]), rfl⟩
  exact ⟨h.2.2, h.2.1⟩

/-- Witness for `capture_never_discards`: the state reached by Scenario A
is capturing and indeed speech-marked, with nothing discarded. -/
theorem capture_never_discards_witness :
    (runTrace 4 (scenarioAB 0)).isCapturing = true
    ∧ (runTrace 4 (scenarioAB 0)).hasSpeech = true
    ∧ (runTrace 4 (scenarioAB 0)).discardedChunks = 0 := by
  refine ⟨by decide, ?_, (capture_never_discards 4 (scenarioAB 0)).1⟩
  exact (capture_never_discards 4 (scenarioAB 0)).2 (by decide)

theorem runFrom_append (cap : Nat) (s : MState) (ts1 ts2 : List FrameIn) :
    runFrom cap s (ts1 ++ ts2) = runFrom cap (runFrom cap s ts1) ts2 := by
  unfold runFrom
  exact List.foldl_append _ _ _ _

theorem runTrace_snoc (cap : Nat) (ts : List FrameIn) (f : FrameIn) :
    runTrace cap (ts ++ [f]) = audioRecordingTask cap f (runTrace cap ts) := by
  unfold runTrace
  rw [runFrom_append]
  rfl

def staysIdleAux (cap : Nat) (s : MState) : List FrameIn → Bool
  | [] => true
  | f :: rest =>
    !(audioRecordingTask cap f s).isCapturing
      && staysIdleAux cap (audioRecordingTask cap f s) rest

def staysIdle (cap : Nat) (ts : List FrameIn) : Bool := staysIdleAux cap (initState cap) ts

theorem staysIdleAux_append (cap : Nat) :
    ∀ (ts1 : List FrameIn) (s : MState) (ts2 : List FrameIn),
      staysIdleAux cap s (ts1 ++ ts2) =
        (staysIdleAux cap s ts1 && staysIdleAux cap (runFrom cap s ts1) ts2) := by
  intro ts1
  induction ts1 with
  | nil => intro s ts2; simp [staysIdleAux, runFrom]
  | cons f t ih =>
    intro s ts2
    show staysIdleAux cap s (f :: (t ++ ts2)) = _
    rw [staysIdleAux]
    rw [staysIdleAux]
    have hr : runFrom cap s (f :: t) = runFrom cap (audioRecordingTask cap f s) t := by
      unfold runFrom
      rw [List.foldl_cons]
    rw [ih (audioRecordingTask cap f s) ts2, hr, Bool.and_assoc]

theorem staysIdleAux_last (cap : Nat) :
    ∀ (ts : List FrameIn) (s : MState), s.isCapturing = false →
      staysIdleAux cap s ts = true → (runFrom cap s ts).isCapturing = false := by
  intro ts
  induction ts with
  | nil => intro s h _; exact h
  | cons f t ih =>
    intro s h hs
    rw [staysIdleAux, Bool.and_eq_true] at hs
    obtain ⟨hs1, hs2⟩ := hs
    have h2 : (audioRecordingTask cap f s).isCapturing = false := by
      cases hv : (audioRecordingTask cap f s).isCapturing
      · rfl
      · rw [hv] at hs1
        exact absurd hs1 (by decide)
    show (runFrom cap (audioRecordingTask cap f s) t).isCapturing = false
    exact ih _ h2 hs2

theorem idleBytes_append (ts1 ts2 : List FrameIn) :
    idleBytes (ts1 ++ ts2) = idleBytes ts1 ++ idleBytes ts2 := by
  unfold idleBytes
  rw [List.map_append, List.flatten_append]

theorem addToPreBuffer_append (cap : Nat) (b : PreBuf) (l1 l2 : List Nat) :
    addToPreBuffer cap b (l1 ++ l2) = addToPreBuffer cap (addToPreBuffer cap b l1) l2 := by
  unfold addToPreBuffer
  exact List.foldl_append _ _ _ _

theorem staysIdle_split (cap : Nat) (ts : List FrameIn) (g : FrameIn)
    (h : staysIdle cap (ts ++ [g]) = true) :
    staysIdle cap ts = true
    ∧ (audioRecordingTask cap g (runTrace cap ts)).isCapturing = false := by
  unfold staysIdle at *
  rw [staysIdleAux_append, Bool.and_eq_true] at h
  obtain ⟨h1, h2⟩ := h
  refine ⟨h1, ?_⟩
  rw [staysIdleAux, Bool.and_eq_true] at h2
  obtain ⟨h21, _⟩ := h2
  cases hv : (audioRecordingTask cap g (runFrom cap (initState cap) ts)).isCapturing
  · exact hv
  · rw [hv] at h21
    exact absurd h21 (by decide)

theorem snc_isCapturing (cap now : Nat) (s : MState) :
    (startNewRecordingChunk cap now s).isCapturing = true := rfl

theorem staysIdle_state (cap : Nat) :
    ∀ (ts : List FrameIn), staysIdle cap ts = true →
      (runTrace cap ts).isCapturing = false
      ∧ (runTrace cap ts).fileOpen = false
      ∧ (runTrace cap ts).pre = addToPreBuffer cap (initBuf cap) (idleBytes ts) := by
  intro ts
  induction ts using List.reverseRecOn with
  | nil =>
    intro _
    refine ⟨rfl, rfl, ?_⟩
    show initBuf cap = addToPreBuffer cap (initBuf cap) (idleBytes [])
    rfl
  | append_singleton ts g ih =>
    intro h
    obtain ⟨hts, hcap2⟩ := staysIdle_split cap ts g h
    obtain ⟨hic, hfo, hpre⟩ := ih hts
    rw [runTrace_snoc]
    by_cases h0 : g.samples.length = 0
    · have hstep : audioRecordingTask cap g (runTrace cap ts) = runTrace cap ts := by
        unfold audioRecordingTask
        rw [if_pos h0]
      rw [hstep]
      refine ⟨hic, hfo, ?_⟩
      have hfb : frameBytes g.samples = [] := by
        have hg : g.samples = [] := List.length_eq_zero.mp h0
        rw [hg]
        rfl
      rw [hpre, idleBytes_append, addToPreBuffer_append]
      show _ = addToPreBuffer cap _ (idleBytes [g])
      have : idleBytes [g] = [] := by
        unfold idleBytes
        simp [hfb]
      rw [this]
      rfl
    · have hstep : audioRecordingTask cap g (runTrace cap ts) =
          idleStep cap g (runTrace cap ts) := by
        unfold audioRecordingTask
        rw [if_neg h0, if_pos hic]
      rw [hstep] at hcap2 ⊢
      have hcompose : (addToPreBuffer cap (runTrace cap ts).pre (frameBytes g.samples)) =
          addToPreBuffer cap (initBuf cap) (idleBytes (ts ++ [g])) := by
        rw [hpre, idleBytes_append, addToPreBuffer_append]
        have hone : idleBytes [g] = frameBytes g.samples := by
          unfold idleBytes
          simp
        rw [hone]
      unfold idleStep at hcap2 ⊢
      by_cases hsp : VAD_THRESHOLD ≤ calculateRMS g.samples
      · rw [if_pos hsp] at hcap2 ⊢
        by_cases hd : (runTrace cap ts).speechDetected = false
        · rw [if_pos hd]
          exact ⟨hic, hfo, hcompose⟩
        · rw [if_neg hd] at hcap2 ⊢
          by_cases hdur : VAD_SPEECH_START_MS ≤ g.now - (runTrace cap ts).speechStartTime
          · rw [if_pos hdur] at hcap2
            exact absurd (show (true : Bool) = false from hcap2) (by decide)
          · rw [if_neg hdur]
            exact ⟨hic, hfo, hcompose⟩
      · rw [if_neg hsp]
        exact ⟨hic, hfo, hcompose⟩

theorem getD_append_lt (d : FrameIn) :
    ∀ (ts : List FrameIn) (g : FrameIn) (j : Nat), j < ts.length →
      (ts ++ [g]).getD j d = ts.getD j d := by
  intro ts
  induction ts with
  | nil => intro g j h; simp at h
  | cons a t ih =>
    intro g j h
    cases j with
    | zero => rfl
    | succ i =>
      show (t ++ [g]).getD i d = t.getD i d
      exact ih g i (by simpa using h)

theorem getD_append_len (d : FrameIn) :
    ∀ (ts : List FrameIn) (g : FrameIn), (ts ++ [g]).getD ts.length d = g := by
  intro ts
  induction ts with
  | nil => intro g; rfl
  | cons a t ih => intro g; exact ih g

theorem drop_append_le (ts : List FrameIn) (g : FrameIn) (j : Nat) (h : j ≤ ts.length) :
    (ts ++ [g]).drop j = ts.drop j ++ [g] := by
  rw [List.drop_append_eq_append_drop]
  have h2 : j - ts.length = 0 := by omega
  rw [h2]
  rfl

theorem idle_trigger_cases (cap : Nat) (f : FrameIn) (s : MState)
    (h0 : ¬ f.samples.length = 0) (hic : s.isCapturing = false)
    (htrig : (audioRecordingTask cap f s).isCapturing = true) :
    VAD_THRESHOLD ≤ calculateRMS f.samples
    ∧ s.speechDetected = true
    ∧ VAD_SPEECH_START_MS ≤ f.now - s.speechStartTime
    ∧ audioRecordingTask cap f s =
      { startNewRecordingChunk cap f.now
          { s with pre := addToPreBuffer cap s.pre (frameBytes f.samples) }
        with hasSpeech := true } := by
  unfold audioRecordingTask at htrig ⊢
  rw [if_neg h0, if_pos hic] at htrig ⊢
  unfold idleStep at htrig ⊢
  by_cases hsp : VAD_THRESHOLD ≤ calculateRMS f.samples
  · rw [if_pos hsp] at htrig ⊢
    by_cases hd : s.speechDetected = false
    · rw [if_pos hd] at htrig
      exact absurd (show s.isCapturing = true from htrig) (by rw [hic]; decide)
    · rw [if_neg hd] at htrig ⊢
      by_cases hdur : VAD_SPEECH_START_MS ≤ f.now - s.speechStartTime
      · rw [if_pos hdur]
        have hdet : s.speechDetected = true := by
          cases hv : s.speechDetected
          · exact absurd hv hd
          · rfl
        exact ⟨hsp, hdet, hdur, rfl⟩
      · rw [if_neg hdur] at htrig
        exact absurd (show s.isCapturing = true from htrig) (by rw [hic]; decide)
  · rw [if_neg hsp] at htrig
    exact absurd (show s.isCapturing = true from htrig) (by rw [hic]; decide)

theorem staysIdle_pending (cap : Nat) :
    ∀ (ts : List FrameIn), staysIdle cap ts = true →
      (∀ fr ∈ ts, fr.samples ≠ []) →
      (runTrace cap ts).speechDetected = true →
      ∃ j, j < ts.length
        ∧ (runTrace cap ts).speechStartTime = (ts.getD j ⟨0, []⟩).now
        ∧ (ts.drop j).all frameIsSpeech = true := by
  intro ts
  induction ts using List.reverseRecOn with
  | nil =>
    intro _ _ hd
    exact absurd (show (false : Bool) = true from hd) (by decide)
  | append_singleton ts g ih =>
    intro h hne hd2
    obtain ⟨hts, hcap2⟩ := staysIdle_split cap ts g h
    obtain ⟨hic, hfo, hpre⟩ := staysIdle_state cap ts hts
    have hgne : g.samples ≠ [] := hne g (by simp)
    have h0 : ¬ g.samples.length = 0 := by
      intro hx
      exact hgne (List.length_eq_zero.mp hx)
    have hstep : audioRecordingTask cap g (runTrace cap ts) =
        idleStep cap g (runTrace cap ts) := by
      unfold audioRecordingTask
      rw [if_neg h0, if_pos hic]
    rw [runTrace_snoc, hstep] at hd2
    rw [runTrace_snoc, hstep]
    unfold idleStep at hd2 ⊢
    by_cases hsp : VAD_THRESHOLD ≤ calculateRMS g.samples
    · rw [if_pos hsp] at hd2 ⊢
      by_cases hd : (runTrace cap ts).speechDetected = false
      · rw [if_pos hd]
        refine ⟨ts.length, by simp, ?_, ?_⟩
        · show g.now = ((ts ++ [g]).getD ts.length ⟨0, []⟩).now
          rw [getD_append_len]
        · rw [drop_append_le ts g ts.length (le_refl _), List.drop_length, List.nil_append]
          show (frameIsSpeech g && true) = true
          have : frameIsSpeech g = true := decide_eq_true hsp
          rw [this]
          rfl
      · rw [if_neg hd] at hd2 ⊢
        by_cases hdur : VAD_SPEECH_START_MS ≤ g.now - (runTrace cap ts).speechStartTime
        · exfalso
          rw [hstep] at hcap2
          unfold idleStep at hcap2
          rw [if_pos hsp, if_neg hd, if_pos hdur] at hcap2
          exact absurd (show (true : Bool) = false from hcap2) (by decide)
        · rw [if_neg hdur]
          have hdet : (runTrace cap ts).speechDetected = true := by
            cases hv : (runTrace cap ts).speechDetected
            · exact absurd hv hd
            · rfl
          obtain ⟨j, hj, hst, hall⟩ := ih hts (fun fr hfr => hne fr (by simp [hfr])) hdet
          refine ⟨j, by simp; omega, ?_, ?_⟩
          · show (runTrace cap ts).speechStartTime = _
            rw [hst, getD_append_lt ⟨0, []⟩ ts g j hj]
          · rw [drop_append_le ts g j (by omega), List.all_append, hall]
            show (true && (frameIsSpeech g && true)) = true
            have hfg : frameIsSpeech g = true := decide_eq_true hsp
            rw [hfg]
            rfl
    · rw [if_neg hsp] at hd2
      exact absurd (show (false : Bool) = true from hd2) (by decide)

/-- C6 (amended): capture starts from Idle only on an above-threshold frame
with the pending flag set and the debounce time elapsed since the recorded
pending start; a sub-threshold idle frame clears the pending flag; and as
long as the machine has never yet captured, the pending start time is the
first frame of the current contiguous above-threshold run, so the
transition happens only after a contiguous run of duration at least
`speechStartDebounce`. -/
theorem speech_start_debounce (cap : Nat) (ts : List FrameIn) (f : FrameIn)
    (hne : ∀ fr ∈ ts ++ [f], fr.samples ≠ [])
    (hidle : (runTrace cap ts).isCapturing = false) :
    ((runTrace cap (ts ++ [f])).isCapturing = true →
      frameIsSpeech f = true
      ∧ (runTrace cap ts).speechDetected = true
      ∧ VAD_SPEECH_START_MS ≤ f.now - (runTrace cap ts).speechStartTime)
    ∧ (frameIsSpeech f = false → (runTrace cap (ts ++ [f])).speechDetected = false)
    ∧ (staysIdle cap ts = true → (runTrace cap (ts ++ [f])).isCapturing = true →
      ∃ j, j ≤ ts.length
        ∧ ((ts ++ [f]).drop j).all frameIsSpeech = true
        ∧ VAD_SPEECH_START_MS ≤ f.now - ((ts ++ [f]).getD j ⟨0, []⟩).now) := by
  have hfne : f.samples ≠ [] := hne f (by simp)
  have h0 : ¬ f.samples.length = 0 := by
    intro hx
    exact hfne (List.length_eq_zero.mp hx)
  refine ⟨?_, ?_, ?_⟩
  · intro htrig
    rw [runTrace_snoc] at htrig
    obtain ⟨hsp, hdet, hdur, _⟩ := idle_trigger_cases cap f (runTrace cap ts) h0 hidle htrig
    exact ⟨decide_eq_true hsp, hdet, hdur⟩
  · intro hfi
    have hsp : ¬ VAD_THRESHOLD ≤ calculateRMS f.samples := of_decide_eq_false hfi
    rw [runTrace_snoc]
    unfold audioRecordingTask
    rw [if_neg h0, if_pos hidle]
    unfold idleStep
    rw [if_neg hsp]
  · intro hstays htrig
    rw [runTrace_snoc] at htrig
    obtain ⟨hsp, hdet, hdur, _⟩ := idle_trigger_cases cap f (runTrace cap ts) h0 hidle htrig
    obtain ⟨j, hj, hst, hall⟩ := staysIdle_pending cap ts hstays
      (fun fr hfr => hne fr (by simp [hfr])) hdet
    refine ⟨j, by omega, ?_, ?_⟩
    · rw [drop_append_le ts f j (by omega), List.all_append, hall]
      show (true && (frameIsSpeech f && true)) = true
      have hfg : frameIsSpeech f = true := decide_eq_true hsp
      rw [hfg]
      rfl
    · rw [getD_append_lt ⟨0, []⟩ ts f j hj, ← hst]
      exact hdur

theorem gracefulClose_pre (s : MState) : (gracefulClose s).pre = s.pre :=
  (gracefulClose_proj s).2.2

/-- C7: on the Idle-to-Capturing transition the entire pre-buffer content -
exactly `min(bytes pushed while idle, capacity)` most-recent bytes, in
chronological order across any number of wraparounds - is written to the
new segment file directly after the WAV header, before any live frame, and
the pre-buffer is cleared. -/
theorem prebuffer_drained_on_capture (cap : Nat) (ts : List FrameIn) (f : FrameIn)
    (hcap : 0 < cap) (hstays : staysIdle cap ts = true)
    (htrig : (runTrace cap (ts ++ [f])).isCapturing = true) :
    (runTrace cap (ts ++ [f])).fileBytes =
      writeWavHeader SAMPLE_RATE BITS_PER_SAMPLE CHANNELS
        ++ (idleBytes (ts ++ [f])).drop ((idleBytes (ts ++ [f])).length - cap)
    ∧ ((idleBytes (ts ++ [f])).drop ((idleBytes (ts ++ [f])).length - cap)).length
        = min (idleBytes (ts ++ [f])).length cap
    ∧ (runTrace cap (ts ++ [f])).pre.head = 0
    ∧ (runTrace cap (ts ++ [f])).pre.fill = 0 := by
  obtain ⟨hic, hfo, hpre⟩ := staysIdle_state cap ts hstays
  rw [runTrace_snoc] at htrig ⊢
  by_cases h0 : f.samples.length = 0
  · exfalso
    have hstep : audioRecordingTask cap f (runTrace cap ts) = runTrace cap ts := by
      unfold audioRecordingTask
      rw [if_pos h0]
    rw [hstep, hic] at htrig
    exact absurd htrig (by decide)
  · obtain ⟨hsp, hdet, hdur, heq⟩ := idle_trigger_cases cap f (runTrace cap ts) h0 hic htrig
    rw [heq]
    have hbuf : addToPreBuffer cap (runTrace cap ts).pre (frameBytes f.samples)
        = addToPreBuffer cap (initBuf cap) (idleBytes (ts ++ [f])) := by
      rw [hpre, idleBytes_append, addToPreBuffer_append]
      have hone : idleBytes [f] = frameBytes f.samples := by
        unfold idleBytes
        simp
      rw [hone]
    obtain ⟨hlen, hfill, hhead, hflush⟩ := pushAll_spec cap hcap (idleBytes (ts ++ [f]))
    refine ⟨?_, ?_, ?_, ?_⟩
    · show writeWavHeader SAMPLE_RATE BITS_PER_SAMPLE CHANNELS
          ++ (flushPreBufferToFile cap (gracefulClose
              { runTrace cap ts with
                pre := addToPreBuffer cap (runTrace cap ts).pre (frameBytes f.samples) }).pre).1
        = _
      rw [gracefulClose_pre]
      show writeWavHeader SAMPLE_RATE BITS_PER_SAMPLE CHANNELS
          ++ (flushPreBufferToFile cap
              (addToPreBuffer cap (runTrace cap ts).pre (frameBytes f.samples))).1 = _
      rw [hbuf, hflush]
    · rw [List.length_drop]
      omega
    · show (flushPreBufferToFile cap (gracefulClose
          { runTrace cap ts with
            pre := addToPreBuffer cap (runTrace cap ts).pre (frameBytes f.samples) }).pre).2.head = 0
      rw [gracefulClose_pre]
      show (flushPreBufferToFile cap
          (addToPreBuffer cap (runTrace cap ts).pre (frameBytes f.samples))).2.head = 0
      rw [hbuf]
      unfold flushPreBufferToFile
      split
      · rename_i hz
        rw [hz] at hfill
        rw [hhead]
        have hl : (idleBytes (ts ++ [f])).length = 0 := by omega
        rw [hl]
        simp
      · split <;> rfl
    · show (flushPreBufferToFile cap (gracefulClose
          { runTrace cap ts with
            pre := addToPreBuffer cap (runTrace cap ts).pre (frameBytes f.samples) }).pre).2.fill = 0
      rw [gracefulClose_pre]
      show (flushPreBufferToFile cap
          (addToPreBuffer cap (runTrace cap ts).pre (frameBytes f.samples))).2.fill = 0
      rw [hbuf]
      unfold flushPreBufferToFile
      split
      · rename_i hz
        exact hz
      · split <;> rfl

/-! Upload ledger (`uploadIndex`, `loadUploadIndex`, `markFileAsUploaded`,
`isFileUploaded`): a JSON object mapping filename to a boolean, modelled as
an association list where assignment prepends (later entries shadow). -/

abbrev Ledger : Type := List (String × Bool)

def isFileUploaded : Ledger → String → Bool
  | [], _ => false
  | (k, v) :: rest, fn => if k = fn then v else isFileUploaded rest fn

def markFileAsUploaded (ledger : Ledger) (fn : String) : Ledger :=
  (fn, true) :: ledger

def stringEndsWith (s suffix : String) : Bool :=
  List.isSuffixOf suffix.data s.data

def sizeSum (files : List (String × Nat)) : Nat := (files.map Prod.snd).sum

/-- The `while (f = root.openNextFile())` loop of `cleanupStorage`: `kept`
holds the files already scanned and not deleted, `rest` the files still to
scan; `base` is the filesystem usage outside the scanned listing.  A `.wav`
file marked uploaded is deleted; afterwards, if usage has dropped below
`MAX_STORAGE_BYTES - MIN_FREE_SPACE` the loop breaks, leaving the rest
untouched. -/
def cleanupLoop (ledger : Ledger) (base : Nat) :
    List (String × Nat) → List (String × Nat) → List (String × Nat)
  | kept, [] => kept
  | kept, (fn, sz) :: rest =>
    if stringEndsWith fn ".wav" = true ∧ isFileUploaded ledger fn = true then
      if base + sizeSum kept + sizeSum rest < MAX_STORAGE_BYTES - MIN_FREE_SPACE then
        kept ++ rest
      else cleanupLoop ledger base kept rest
    else cleanupLoop ledger base (kept ++ [(fn, sz)]) rest

/-- `cleanupStorage()`: no-op while used bytes are below the budget,
otherwise scan the recordings directory in listing order. -/
def cleanupStorage (base : Nat) (ledger : Ledger) (files : List (String × Nat)) :
    List (String × Nat) :=
  if base + sizeSum files < MAX_STORAGE_BYTES then files
  else cleanupLoop ledger base [] files

theorem cleanupLoop_deleted_eligible (ledger : Ledger) (base : Nat) :
    ∀ (rest kept : List (String × Nat)) (p : String × Nat),
      p ∈ kept ++ rest → p ∉ cleanupLoop ledger base kept rest →
      stringEndsWith p.1 ".wav" = true ∧ isFileUploaded ledger p.1 = true := by
  intro rest
  induction rest with
  | nil =>
    intro kept p hin hout
    rw [List.append_nil] at hin
    exact absurd hin hout
  | cons q rest ih =>
    intro kept p hin hout
    rw [cleanupLoop] at hout
    by_cases he : stringEndsWith q.1 ".wav" = true ∧ isFileUploaded ledger q.1 = true
    · rw [if_pos he] at hout
      by_cases hb : base + sizeSum kept + sizeSum rest < MAX_STORAGE_BYTES - MIN_FREE_SPACE
      · rw [if_pos hb] at hout
        by_cases hpq : p = q
        · rw [hpq]; exact he
        · exfalso
          apply hout
          rw [List.mem_append] at hin ⊢
          rcases hin with h1 | h2
          · exact Or.inl h1
          · rcases List.mem_cons.mp h2 with h3 | h4
            · exact absurd h3 hpq
            · exact Or.inr h4
      · rw [if_neg hb] at hout
        by_cases hpq : p = q
        · rw [hpq]; exact he
        · apply ih kept p ?_ hout
          rw [List.mem_append] at hin ⊢
          rcases hin with h1 | h2
          · exact Or.inl h1
          · rcases List.mem_cons.mp h2 with h3 | h4
            · exact absurd h3 hpq
            · exact Or.inr h4
    · rw [if_neg he] at hout
      apply ih (kept ++ [q]) p ?_ hout
      rw [List.mem_append, List.mem_append]
      rw [List.mem_append] at hin
      rcases hin with h1 | h2
      · exact Or.inl (Or.inl h1)
      · rcases List.mem_cons.mp h2 with h3 | h4
        · exact Or.inl (Or.inr (by rw [h3]; exact List.mem_singleton_self q))
        · exact Or.inr h4

theorem cleanupLoop_stop (ledger : Ledger) (base : Nat) :
    ∀ (rest kept : List (String × Nat)),
      (∀ p ∈ kept, ¬(stringEndsWith p.1 ".wav" = true ∧ isFileUploaded ledger p.1 = true)) →
      (∀ p ∈ cleanupLoop ledger base kept rest,
        ¬(stringEndsWith p.1 ".wav" = true ∧ isFileUploaded ledger p.1 = true))
      ∨ base + sizeSum (cleanupLoop ledger base kept rest)
          < MAX_STORAGE_BYTES - MIN_FREE_SPACE := by
  intro rest
  induction rest with
  | nil =>
    intro kept hkept
    left
    intro p hp
    exact hkept p hp
  | cons q rest ih =>
    intro kept hkept
    rw [cleanupLoop]
    by_cases he : stringEndsWith q.1 ".wav" = true ∧ isFileUploaded ledger q.1 = true
    · rw [if_pos he]
      by_cases hb : base + sizeSum kept + sizeSum rest < MAX_STORAGE_BYTES - MIN_FREE_SPACE
      · rw [if_pos hb]
        right
        have : sizeSum (kept ++ rest) = sizeSum kept + sizeSum rest := by
          unfold sizeSum
          rw [List.map_append, List.sum_append]
        omega
      · rw [if_neg hb]
        exact ih kept hkept
    · rw [if_neg he]
      apply ih (kept ++ [q])
      intro p hp
      rcases List.mem_append.mp hp with h1 | h2
      · exact hkept p h1
      · rw [List.mem_singleton.mp h2]
        exact he

/-- C4 (amended): an eviction pass deletes a file only if it is a `.wav`
segment that the ledger marks uploaded (the pass has no
currently-open-segment guard); it is a no-op when used bytes are below the
budget; and it stops either with no eligible file remaining or with used
bytes below `budget - minFreeReserve`. -/
theorem cleanupStorage_policy (base : Nat) (ledger : Ledger)
    (files : List (String × Nat)) :
    (∀ p ∈ files, p ∉ cleanupStorage base ledger files →
      stringEndsWith p.1 ".wav" = true ∧ isFileUploaded ledger p.1 = true)
    ∧ (base + sizeSum files < MAX_STORAGE_BYTES →
        cleanupStorage base ledger files = files)
    ∧ (¬ base + sizeSum files < MAX_STORAGE_BYTES →
        (∀ p ∈ cleanupStorage base ledger files,
          ¬(stringEndsWith p.1 ".wav" = true ∧ isFileUploaded ledger p.1 = true))
        ∨ base + sizeSum (cleanupStorage base ledger files)
            < MAX_STORAGE_BYTES - MIN_FREE_SPACE) := by
  refine ⟨?_, ?_, ?_⟩
  · intro p hin hout
    unfold cleanupStorage at hout
    by_cases hlt : base + sizeSum files < MAX_STORAGE_BYTES
    · rw [if_pos hlt] at hout
      exact absurd hin hout
    · rw [if_neg hlt] at hout
      exact cleanupLoop_deleted_eligible ledger base files [] p (by simpa using hin) hout
  · intro hlt
    unfold cleanupStorage
    rw [if_pos hlt]
  · intro hge
    unfold cleanupStorage
    rw [if_neg hge]
    exact cleanupLoop_stop ledger base files [] (by intro p hp; simp at hp)

/-- C4 counterexample: the claim adds "and is not the currently open
segment", but `cleanupStorage` consults only the name suffix and the
ledger, so a pass deletes an uploaded `.wav` file even when that very file
is the currently open segment. -/
theorem cleanupStorage_deletes_open_segment :
    ¬ (∀ (base : Nat) (ledger : Ledger) (files : List (String × Nat))
        (currentFilename : String), ∀ p ∈ files,
        p ∉ cleanupStorage base ledger files → p.1 ≠ currentFilename) := by
  intro h
  have h2 := h 0 [("/recordings/20240101_000000.wav", true)]
    [("/recordings/20240101_000000.wav", MAX_STORAGE_BYTES)]
    "/recordings/20240101_000000.wav"
    ("/recordings/20240101_000000.wav", MAX_STORAGE_BYTES)
    (by decide) (by decide)
  exact h2 rfl

/-- Witness for `cleanupStorage_policy`: below budget the pass is a no-op. -/
theorem cleanupStorage_policy_witness :
    (0 : Nat) + sizeSum [("/recordings/a.wav", 100)] < MAX_STORAGE_BYTES
    ∧ cleanupStorage 0 [] [("/recordings/a.wav", 100)] = [("/recordings/a.wav", 100)] := by
  refine ⟨by decide, ?_⟩
  exact (cleanupStorage_policy 0 [] [("/recordings/a.wav", 100)]).2.1 (by decide)

/-! Upload pass (`uploadTask` scan loop and the effects of `uploadFile`).

`uploadFile` on success marks the ledger (durably, via `saveUploadIndex`
inside `markFileAsUploaded`) and then deletes the local file; on failure it
leaves everything unchanged.  The scan loop visits the directory listing in
order, skipping files that are not `.wav`, already uploaded, or the
currently open segment; it breaks out of the loop only when an attempt
fails.  `succeeds` abstracts the network outcome per file. -/

inductive UpEvent where
  | ledgerWrite (fn : String)
  | fileDelete (fn : String)
  deriving DecidableEq

structure ScanResult where
  ledger : Ledger
  files : List String
  uploaded : List String
  failedAttempts : Nat
  events : List UpEvent

def eligibleForUpload (ledger : Ledger) (currentFilename fn : String) : Bool :=
  stringEndsWith fn ".wav" && !(isFileUploaded ledger fn) && fn != currentFilename

def uploadScan (succeeds : String → Bool) (currentFilename : String) :
    List String → Ledger → List String → ScanResult
  | [], ledger, fs => ⟨ledger, fs, [], 0, []⟩
  | fn :: rest, ledger, fs =>
    if eligibleForUpload ledger currentFilename fn = true then
      if succeeds fn = true then
        let r := uploadScan succeeds currentFilename rest
          (markFileAsUploaded ledger fn) (fs.erase fn)
        ⟨r.ledger, r.files, fn :: r.uploaded, r.failedAttempts,
          UpEvent.ledgerWrite fn :: UpEvent.fileDelete fn :: r.events⟩
      else ⟨ledger, fs, [], 1, []⟩
    else uploadScan succeeds currentFilename rest ledger fs

/-- C2 counterexample: a pass in which two eligible files both upload
successfully marks both as uploaded before control returns - the loop
breaks only on failure, so more than one file can transition per pass. -/
theorem upload_pass_two_in_one_pass :
    ¬ (∀ (succeeds : String → Bool) (currentFilename : String)
        (listing : List String) (ledger : Ledger),
        (uploadScan succeeds currentFilename listing ledger listing).uploaded.length ≤ 1) := by
  intro h
  have h2 := h (fun _ => true) "/recordings/open.wav"
    ["/recordings/a.wav", "/recordings/b.wav"] []
  exact absurd h2 (by decide)

/-- C2 (amended): per upload pass the scan stops at the first failed
attempt, so at most one attempt fails per pass; successful uploads do not
stop the scan, so any number of files may transition to uploaded. -/
theorem upload_pass_single_failure (succeeds : String → Bool) (currentFilename : String) :
    ∀ (listing : List String) (ledger : Ledger) (fs : List String),
      (uploadScan succeeds currentFilename listing ledger fs).failedAttempts ≤ 1 := by
  intro listing
  induction listing with
  | nil => intro ledger fs; exact Nat.zero_le 1
  | cons fn rest ih =>
    intro ledger fs
    rw [uploadScan]
    by_cases he : eligibleForUpload ledger currentFilename fn = true
    · rw [if_pos he]
      by_cases hs : succeeds fn = true
      · rw [if_pos hs]
        exact ih (markFileAsUploaded ledger fn) (fs.erase fn)
      · rw [if_neg hs]
    · rw [if_neg he]
      exact ih ledger fs

theorem uploadScan_uploaded_subset (succeeds : String → Bool) (currentFilename : String) :
    ∀ (listing : List String) (ledger : Ledger) (fs : List String),
      (uploadScan succeeds currentFilename listing ledger fs).uploaded ⊆ listing := by
  intro listing
  induction listing with
  | nil =>
    intro ledger fs x hx
    exact absurd (show x ∈ ([] : List String) from hx) (List.not_mem_nil x)
  | cons fn rest ih =>
    intro ledger fs x hx
    rw [uploadScan] at hx
    by_cases he : eligibleForUpload ledger currentFilename fn = true
    · rw [if_pos he] at hx
      by_cases hs : succeeds fn = true
      · rw [if_pos hs] at hx
        rcases List.mem_cons.mp hx with h1 | h2
        · exact List.mem_cons.mpr (Or.inl h1)
        · exact List.mem_cons.mpr (Or.inr (ih _ _ h2))
      · rw [if_neg hs] at hx
        exact absurd hx (by simp)
    · rw [if_neg he] at hx
      exact List.mem_cons.mpr (Or.inr (ih _ _ hx))

theorem uploadScan_files_subset (succeeds : String → Bool) (currentFilename : String) :
    ∀ (listing : List String) (ledger : Ledger) (fs : List String),
      (uploadScan succeeds currentFilename listing ledger fs).files ⊆ fs := by
  intro listing
  induction listing with
  | nil => intro ledger fs x hx; exact hx
  | cons fn rest ih =>
    intro ledger fs x hx
    rw [uploadScan] at hx
    by_cases he : eligibleForUpload ledger currentFilename fn = true
    · rw [if_pos he] at hx
      by_cases hs : succeeds fn = true
      · rw [if_pos hs] at hx
        exact List.erase_subset fn fs (ih _ _ hx)
      · rw [if_neg hs] at hx
        exact hx
    · rw [if_neg he] at hx
      exact ih ledger fs hx

theorem isFileUploaded_mark (ledger : Ledger) (g F : String)
    (h : isFileUploaded ledger F = true) :
    isFileUploaded (markFileAsUploaded ledger g) F = true := by
  show isFileUploaded ((g, true) :: ledger) F = true
  rw [isFileUploaded]
  by_cases hgf : g = F
  · rw [if_pos hgf]
  · rw [if_neg hgf]
    exact h

theorem isFileUploaded_mark_self (ledger : Ledger) (F : String) :
    isFileUploaded (markFileAsUploaded ledger F) F = true := by
  show isFileUploaded ((F, true) :: ledger) F = true
  rw [isFileUploaded, if_pos rfl]

theorem uploadScan_ledger_monotone (succeeds : String → Bool) (currentFilename : String) :
    ∀ (listing : List String) (ledger : Ledger) (fs : List String) (F : String),
      isFileUploaded ledger F = true →
      isFileUploaded (uploadScan succeeds currentFilename listing ledger fs).ledger F = true := by
  intro listing
  induction listing with
  | nil => intro ledger fs F h; exact h
  | cons fn rest ih =>
    intro ledger fs F h
    rw [uploadScan]
    by_cases he : eligibleForUpload ledger currentFilename fn = true
    · rw [if_pos he]
      by_cases hs : succeeds fn = true
      · rw [if_pos hs]
        exact ih _ _ F (isFileUploaded_mark ledger fn F h)
      · rw [if_neg hs]
        exact h
    · rw [if_neg he]
      exact ih ledger fs F h

/-- C8: whenever a file F is uploaded successfully during a pass, the
ledger entry is written before F's local file is deleted (adjacent events,
ledger write first), both within the same pass; afterwards the ledger
marks F uploaded, F is gone from storage, and no subsequent pass re-offers
F. -/
theorem upload_success_durable (succeeds : String → Bool) (currentFilename : String) :
    ∀ (listing : List String) (ledger : Ledger) (fs : List String) (F : String),
      fs.Nodup →
      F ∈ (uploadScan succeeds currentFilename listing ledger fs).uploaded →
      isFileUploaded (uploadScan succeeds currentFilename listing ledger fs).ledger F = true
      ∧ F ∉ (uploadScan succeeds currentFilename listing ledger fs).files
      ∧ List.Sublist [UpEvent.ledgerWrite F, UpEvent.fileDelete F]
          (uploadScan succeeds currentFilename listing ledger fs).events
      ∧ (∀ (succeeds2 : String → Bool) (current2 : String) (ledger2 : Ledger),
          F ∉ (uploadScan succeeds2 current2
            (uploadScan succeeds currentFilename listing ledger fs).files ledger2
            (uploadScan succeeds currentFilename listing ledger fs).files).uploaded) := by
  intro listing
  induction listing with
  | nil =>
    intro ledger fs F _ hF
    exact absurd hF (by simp [uploadScan])
  | cons fn rest ih =>
    intro ledger fs F hnd hF
    rw [uploadScan] at hF ⊢
    by_cases he : eligibleForUpload ledger currentFilename fn = true
    · rw [if_pos he] at hF ⊢
      by_cases hs : succeeds fn = true
      · rw [if_pos hs] at hF ⊢
        rcases List.mem_cons.mp hF with h1 | h2
        · -- F is the file uploaded at this step
          subst h1
          have hled : isFileUploaded (uploadScan succeeds currentFilename rest
              (markFileAsUploaded ledger F) (fs.erase F)).ledger F = true :=
            uploadScan_ledger_monotone succeeds currentFilename rest _ _ F
              (isFileUploaded_mark_self ledger F)
          have hnotin : F ∉ fs.erase F := by
            intro hx
            have := (List.Nodup.mem_erase_iff hnd).mp hx
            exact this.1 rfl
          have hfile : F ∉ (uploadScan succeeds currentFilename rest
              (markFileAsUploaded ledger F) (fs.erase F)).files := by
            intro hx
            exact hnotin (uploadScan_files_subset succeeds currentFilename rest _ _ hx)
          refine ⟨hled, hfile, ?_, ?_⟩
          · exact ((List.nil_sublist _).cons₂ _).cons₂ _
          · intro s2 c2 l2 hx
            exact hfile (uploadScan_uploaded_subset s2 c2 _ l2 _ hx)
        · -- F was uploaded later in the pass
          have hrec := ih (markFileAsUploaded ledger fn) (fs.erase fn) F
            (List.Nodup.erase fn hnd) h2
          exact ⟨hrec.1, hrec.2.1, (hrec.2.2.1.cons _).cons _, hrec.2.2.2⟩
      · rw [if_neg hs] at hF
        exact absurd hF (by simp)
    · rw [if_neg he] at hF ⊢
      exact ih ledger fs F hnd hF

/-- Witness for `upload_success_durable` at a one-file listing that
uploads successfully. -/
theorem upload_success_durable_witness :
    (["/recordings/a.wav"] : List String).Nodup
    ∧ "/recordings/a.wav" ∈ (uploadScan (fun _ => true) "" ["/recordings/a.wav"]
        [] ["/recordings/a.wav"]).uploaded
    ∧ isFileUploaded (uploadScan (fun _ => true) "" ["/recordings/a.wav"]
        [] ["/recordings/a.wav"]).ledger "/recordings/a.wav" = true
    ∧ "/recordings/a.wav" ∉ (uploadScan (fun _ => true) "" ["/recordings/a.wav"]
        [] ["/recordings/a.wav"]).files := by
  refine ⟨by decide, by decide, ?_, ?_⟩
  · exact (upload_success_durable (fun _ => true) "" ["/recordings/a.wav"] []
      ["/recordings/a.wav"] "/recordings/a.wav" (by decide) (by decide)).1
  · exact (upload_success_durable (fun _ => true) "" ["/recordings/a.wav"] []
      ["/recordings/a.wav"] "/recordings/a.wav" (by decide) (by decide)).2.1

/-! Upload timestamps (`uploadFile`, lines 693-713, with `getISOTimestamp`).

The source comments say "Parse timestamp from filename ... Use file's
timestamp, not current recording's timestamp", but the code assigns only
the so-called fallback: `fileStartTime = recording.chunkStartTime` (the
start of the currently recording segment) and
`fileEndTime = fileStartTime + CHUNK_DURATION_SEC`, for every file.
`getISOTimestamp` renders `gmtime` of the unix time as
`YYYY-MM-DDTHH:MM:SSZ`; `civilFromDays` is the proleptic-Gregorian
conversion used by standard C libraries, valid for non-negative days since
1970-01-01. -/

def pad2 (n : Nat) : String := if n < 10 then "0" ++ toString n else toString n

def pad4 (n : Nat) : String :=
  if n < 10 then "000" ++ toString n
  else if n < 100 then "00" ++ toString n
  else if n < 1000 then "0" ++ toString n
  else toString n

def civilFromDays (z : Nat) : Nat × Nat × Nat :=
  let z2 := z + 719468
  let era := z2 / 146097
  let doe := z2 % 146097
  let yoe := (doe - doe / 1460 + doe / 36524 - doe / 146096) / 365
  let y := yoe + era * 400
  let doy := doe - (365 * yoe + yoe / 4 - yoe / 100)
  let mp := (5 * doy + 2) / 153
  let d := doy - (153 * mp + 2) / 5 + 1
  let m := if mp < 10 then mp + 3 else mp - 9
  (if m ≤ 2 then y + 1 else y, m, d)

def getISOTimestamp (ut : Nat) : String :=
  let days := ut / 86400
  let secs := ut % 86400
  let ymd := civilFromDays days
  pad4 ymd.1 ++ "-" ++ pad2 ymd.2.1 ++ "-" ++ pad2 ymd.2.2 ++ "T"
    ++ pad2 (secs / 3600) ++ ":" ++ pad2 (secs % 3600 / 60) ++ ":"
    ++ pad2 (secs % 60) ++ "Z"

def uploadFileTimestamps (currentChunkStartTime : Nat) : Nat × Nat :=
  (currentChunkStartTime, currentChunkStartTime + CHUNK_DURATION_SEC)

/-- C3 (code bug): the multipart `startedAt` field is the ISO-8601
rendering of the *currently recording* segment's start time, not of the
uploaded file's own start time, for every file; `endedAt` is that same
(wrong) start plus the nominal chunk duration.  At the failing input - a
file with its own start 1704067200 (2024-01-01T00:00:00Z) uploaded while
the live segment started at 1704153600 - the request carries
2024-01-02T00:00:00Z. -/
theorem upload_timestamps_from_live_segment :
    getISOTimestamp (uploadFileTimestamps 1704153600).1 = "2024-01-02T00:00:00Z"
    ∧ getISOTimestamp (uploadFileTimestamps 1704153600).2 = "2024-01-02T00:05:00Z"
    ∧ getISOTimestamp 1704067200 = "2024-01-01T00:00:00Z"
    ∧ getISOTimestamp (uploadFileTimestamps 1704153600).1 ≠ getISOTimestamp 1704067200 := by
  refine ⟨?_, ?_, ?_, ?_⟩ <;> decide

/-- Witness for `speech_start_debounce`: one pending speech frame at
t = 1000, confirmation at t = 1100. -/
theorem speech_start_debounce_witness :
    ∃ j, j ≤ ([speechFrame 1000] : List FrameIn).length
      ∧ (([speechFrame 1000] ++ [speechFrame 1100]).drop j).all frameIsSpeech = true
      ∧ VAD_SPEECH_START_MS ≤ (speechFrame 1100).now
          - (([speechFrame 1000] ++ [speechFrame 1100]).getD j ⟨0, []⟩).now :=
  (speech_start_debounce 4 [speechFrame 1000] (speechFrame 1100)
    (by decide) (by decide)).2.2 (by decide) (by decide)

/-- Witness for `prebuffer_drained_on_capture`: capacity 4, two idle
frames of two bytes each, capture triggered by the second. -/
theorem prebuffer_drained_on_capture_witness :
    (runTrace 4 ([speechFrame 1000] ++ [speechFrame 1100])).fileBytes =
      writeWavHeader SAMPLE_RATE BITS_PER_SAMPLE CHANNELS
        ++ (idleBytes ([speechFrame 1000] ++ [speechFrame 1100])).drop
            ((idleBytes ([speechFrame 1000] ++ [speechFrame 1100])).length - 4)
    ∧ ((idleBytes ([speechFrame 1000] ++ [speechFrame 1100])).drop
        ((idleBytes ([speechFrame 1000] ++ [speechFrame 1100])).length - 4)).length
        = min (idleBytes ([speechFrame 1000] ++ [speechFrame 1100])).length 4
    ∧ (runTrace 4 ([speechFrame 1000] ++ [speechFrame 1100])).pre.head = 0
    ∧ (runTrace 4 ([speechFrame 1000] ++ [speechFrame 1100])).pre.fill = 0 :=
  prebuffer_drained_on_capture 4 [speechFrame 1000] (speechFrame 1100)
    (by decide) (by decide) (by decide)

end REM
